import Mathlib

/-!
Verification of the long-form novel-generation pipeline
(`novel_generator.py`) against its natural-language specification.

Texts are shallowly embedded as `List Char` (Python `str`).  The language
model, the embedding model, the sentence tokenizer, the directory parser
and the file-I/O helpers are external collaborators of the code under
analysis; they are modelled as explicit oracle parameters.  Stateful
functions become explicit state-passing over a record of the files they
touch.
-/

set_option autoImplicit false

namespace NovelGen

/-- Python `str` is modelled as a list of characters. -/
abbrev Chars := List Char

/-- Convert a Lean string literal to the `Chars` model. -/
def chars (s : String) : Chars := s.toList

/-- The whitespace characters removed by Python `str.strip()`
(ASCII fragment; the source texts involved are ASCII/CJK, where
`str.strip()` removes exactly these at the ends). -/
def isWsChar (c : Char) : Bool :=
  c = ' ' || c = '\t' || c = '\n' || c = '\r' || c = '\x0b' || c = '\x0c'

/-- Python `s.strip()`: drop whitespace from both ends. -/
def pyStrip (s : Chars) : Chars :=
  ((s.dropWhile isWsChar).reverse.dropWhile isWsChar).reverse

/-- Erase every whitespace character (used to compare texts
"ignoring whitespace trimming"). -/
def removeWs (s : Chars) : Chars := s.filter (fun c => !isWsChar c)

/-- `startsWith pat s` : `pat` is a prefix of `s` (Python `str.startswith`). -/
def startsWith : Chars → Chars → Bool
  | [], _ => true
  | _ :: _, [] => false
  | p :: ps, c :: cs => p = c && startsWith ps cs

/-- `endsWith pat s` : `pat` is a suffix of `s` (Python `str.endswith`). -/
def endsWith (pat s : Chars) : Bool := startsWith pat.reverse s.reverse

/-- `containsSub pat s` : `pat` occurs as a contiguous substring of `s`
(Python `pat in s`). -/
def containsSub (pat : Chars) : Chars → Bool
  | [] => startsWith pat []
  | c :: rest => startsWith pat (c :: rest) || containsSub pat rest

/-! ### `remove_think_tags` (novel_generator.py, lines 52-56)

`re.sub(r'<think>.*?</think>', '', text, flags=re.DOTALL)`: a single
left-to-right pass removing non-overlapping, leftmost-shortest matches. -/

def thinkOpen : Chars := chars "<think>"
def thinkClose : Chars := chars "</think>"

/-- Find the first occurrence of `</think>` and return what follows it
(the minimal-match semantics of `.*?</think>`); `none` if absent. -/
def dropThroughClose : Chars → Option Chars
  | [] => none
  | c :: rest =>
    if startsWith thinkClose (c :: rest) then some ((c :: rest).drop 8)
    else dropThroughClose rest

theorem dropThroughClose_length_le :
    ∀ s t : Chars, dropThroughClose s = some t → t.length ≤ s.length := by
  intro s
  induction s with
  | nil => intro t h; simp [dropThroughClose] at h
  | cons c rest ih =>
    intro t h
    unfold dropThroughClose at h
    by_cases hc : startsWith thinkClose (c :: rest) = true
    · simp [hc] at h
      subst h
      simp only [List.drop_succ_cons, List.length_cons]
      calc (rest.drop 7).length ≤ rest.length := by
              simp [List.length_drop]
        _ ≤ rest.length + 1 := Nat.le_succ _
    · simp [hc] at h
      exact Nat.le_trans (ih t h) (Nat.le_succ _)

/-- The regex-substitution scan, written with explicit fuel so that it
reduces in the kernel.  One unit of fuel is spent per step and every
step strictly shrinks the text (see `dropThroughClose_length_le`), so
any fuel above the text length gives the same, fuel-independent result
(`rttFuel_fuel_irrelevant`). -/
def rttFuel : Nat → Chars → Chars
  | 0, s => s
  | Nat.succ fuel, s =>
    match s with
    | [] => []
    | c :: rest =>
      if startsWith thinkOpen (c :: rest) then
        match dropThroughClose ((c :: rest).drop 7) with
        | some after => rttFuel fuel after
        | none => c :: rest
      else c :: rttFuel fuel rest

theorem rttFuel_fuel_irrelevant :
    ∀ (fuel1 : Nat) (s : Chars) (fuel2 : Nat), s.length < fuel1 →
      s.length < fuel2 → rttFuel fuel1 s = rttFuel fuel2 s := by
  intro fuel1
  induction fuel1 with
  | zero => intro s fuel2 h1 _; exact absurd h1 (Nat.not_lt_zero _)
  | succ f1 ih =>
    intro s fuel2 h1 h2
    cases fuel2 with
    | zero => exact absurd h2 (Nat.not_lt_zero _)
    | succ f2 =>
      cases s with
      | nil => rfl
      | cons c rest =>
        rw [rttFuel, rttFuel]
        by_cases ho : startsWith thinkOpen (c :: rest) = true
        · rw [if_pos ho, if_pos ho]
          cases hd : dropThroughClose ((c :: rest).drop 7) with
          | none => rfl
          | some after =>
            have hlen := dropThroughClose_length_le _ _ hd
            have hdrop : ((c :: rest).drop 7).length ≤ rest.length := by
              simp [List.length_drop]
            simp only [List.length_cons] at h1 h2
            exact ih after f2 (by omega) (by omega)
        · rw [if_neg ho, if_neg ho]
          simp only [List.length_cons] at h1 h2
          rw [ih rest f2 (by omega) (by omega)]

/-- `remove_think_tags` (source lines 52-56): remove every
(leftmost, non-overlapping, shortest) `<think>...</think>` span.
When an opening tag has no closing tag anywhere after it, the regex has
no further match and the remainder is kept verbatim. -/
def remove_think_tags (s : Chars) : Chars := rttFuel (s.length + 1) s

/-! ### The streaming-continuation protocol
(`invoke_with_cleaning`, source lines 58-118)

The provider (`model.stream`) is modelled as a pure function from the
message history submitted to it to the list of streamed increments of its
reply.  The `while` loop has no bound in the source; it is embedded with
explicit fuel (the number of continuation rounds allowed), returning
`none` when the fuel is exhausted — which corresponds to a run of the
source that has not yet terminated. -/

/-- A chat message: the source builds a `ChatMessageHistory` of
alternating user messages and AI replies. -/
inductive Msg where
  | user (content : Chars)
  | ai (content : Chars)
deriving DecidableEq

/-- The directive appended to the initial prompt (source line 77). -/
def firstDirectiveSuffix : Chars :=
  chars "\n在末尾请发出###表示你的回答已经结束，末尾不要有###以外的任何多余符号"

/-- The continuation directive (source line 93). -/
def continueDirective : Chars :=
  chars "请接着最后一句话继续。如果最后一句话没有说完，就将最后一句话补全后再继续\n在末尾请发出###表示你的回答已经结束，末尾不要有###以外的任何多余符号"

/-- The sentinel token. -/
def sentinel : Chars := chars "###"

/-- One streamed exchange: `msg += chunk.content` for every chunk, where
empty chunks are skipped (`if len(chunk.content) == 0: continue`). -/
def concatChunks (chunks : List Chars) : Chars :=
  chunks.foldl (fun acc c => if c.length = 0 then acc else acc ++ c) []

/-- Result of a terminating run of the protocol loop: the raw accumulated
buffer, the number of requests issued, and the final message history. -/
structure ProtoResult where
  text : Chars
  requests : Nat
  hist : List Msg
deriving DecidableEq

/-- The `while not msg.strip().endswith("###")` loop (source lines 91-103).
`msg` is the accumulated buffer, `k` the number of requests already
issued, `hist` the chat history built so far. -/
def contLoop (provider : List Msg → List Chars) :
    Nat → Chars → Nat → List Msg → Option ProtoResult
  | 0, msg, k, hist =>
    if endsWith sentinel (pyStrip msg) then some ⟨msg, k, hist⟩ else none
  | Nat.succ fuel1, msg, k, hist =>
    if endsWith sentinel (pyStrip msg) then some ⟨msg, k, hist⟩
    else
      let hist1 := hist ++ [Msg.user continueDirective]
      let inc := concatChunks (provider hist1)
      contLoop provider fuel1 (msg ++ inc) (k + 1) (hist1 ++ [Msg.ai inc])

/-- The whole exchange of `invoke_with_cleaning` up to (and without) the
final cleaning step: first request with the directive-suffixed prompt,
then the continuation loop. -/
def runProtocol (provider : List Msg → List Chars) (prompt : Chars)
    (fuel : Nat) : Option ProtoResult :=
  let hist1 := [Msg.user (prompt ++ firstDirectiveSuffix)]
  let inc := concatChunks (provider hist1)
  contLoop provider fuel inc 1 (hist1 ++ [Msg.ai inc])

/-- `invoke_with_cleaning` (source lines 58-118): run the protocol, then
`remove_think_tags(msg).strip()`.  (The `if not response` branch is dead:
an `AIMessage` object is always truthy.) -/
def invoke_with_cleaning (provider : List Msg → List Chars) (prompt : Chars)
    (fuel : Nat) : Option Chars :=
  (runProtocol provider prompt fuel).map fun r => pyStrip (remove_think_tags r.text)

/-! Auxiliary description of the run, used to state the ordering /
cumulative-history guarantees: `submittedHist j` is the message history
submitted to the provider on the `j`-th request (0-based), and
`increment j` the aggregated reply of that request. -/

/-- History submitted to the provider on request `j`. -/
def submittedHist (provider : List Msg → List Chars) (prompt : Chars) :
    Nat → List Msg
  | 0 => [Msg.user (prompt ++ firstDirectiveSuffix)]
  | j + 1 =>
    submittedHist provider prompt j ++
      [Msg.ai (concatChunks (provider (submittedHist provider prompt j))),
       Msg.user continueDirective]

/-- Aggregated (non-empty-chunk concatenated) reply of request `j`. -/
def increment (provider : List Msg → List Chars) (prompt : Chars) (j : Nat) :
    Chars :=
  concatChunks (provider (submittedHist provider prompt j))

/-- Concatenation, in issuance order, of the replies of requests
`0, …, k-1`. -/
def joinIncrements (provider : List Msg → List Chars) (prompt : Chars)
    (k : Nat) : Chars :=
  ((List.range k).map (increment provider prompt)).flatten

/-- Full transcript after the reply of request `j` has been recorded. -/
def afterHist (provider : List Msg → List Chars) (prompt : Chars) (j : Nat) :
    List Msg :=
  submittedHist provider prompt j ++ [Msg.ai (increment provider prompt j)]

theorem concatChunks_eq_flatten_filter (l : List Chars) :
    concatChunks l = (l.filter (fun c => !c.isEmpty)).flatten := by
  suffices aux : ∀ (m : List Chars) (acc : Chars),
      m.foldl (fun acc c => if c.length = 0 then acc else acc ++ c) acc
        = acc ++ (m.filter (fun c => !c.isEmpty)).flatten by
    rw [concatChunks, aux]
    rfl
  intro m
  induction m with
  | nil => intro acc; simp
  | cons c rest ih =>
    intro acc
    rw [List.foldl_cons]
    by_cases hc : c.length = 0
    · have hce : c = [] := List.length_eq_zero.mp hc
      rw [if_pos hc, ih, List.filter_cons]
      subst hce
      simp
    · have hne : (!c.isEmpty) = true := by
        cases c with
        | nil => exact absurd rfl hc
        | cons a t => rfl
      rw [if_neg hc, ih, List.filter_cons]
      simp [hne, List.append_assoc]

theorem joinIncrements_succ (provider : List Msg → List Chars)
    (prompt : Chars) (k : Nat) :
    joinIncrements provider prompt (k + 1)
      = joinIncrements provider prompt k ++ increment provider prompt k := by
  simp [joinIncrements, List.range_succ]

theorem joinIncrements_one (provider : List Msg → List Chars) (prompt : Chars) :
    joinIncrements provider prompt 1 = increment provider prompt 0 := by
  simp [joinIncrements, List.range_succ]

theorem submittedHist_succ (provider : List Msg → List Chars) (prompt : Chars)
    (j : Nat) :
    submittedHist provider prompt (j + 1)
      = submittedHist provider prompt j
          ++ [Msg.ai (increment provider prompt j), Msg.user continueDirective] :=
  rfl

/-- Loop invariant of `contLoop`: started after `j+1` issued requests with
the accumulated buffer and transcript, a terminating run returns the
concatenation of all replies in issuance order and the full transcript. -/
theorem contLoop_spec (provider : List Msg → List Chars) (prompt : Chars) :
    ∀ (fuel j : Nat) (r : ProtoResult),
      contLoop provider fuel (joinIncrements provider prompt (j + 1)) (j + 1)
          (afterHist provider prompt j) = some r →
      r.text = joinIncrements provider prompt r.requests ∧
      r.hist = afterHist provider prompt (r.requests - 1) ∧
      1 ≤ r.requests := by
  intro fuel
  induction fuel with
  | zero =>
    intro j r h
    unfold contLoop at h
    by_cases hs : endsWith sentinel (pyStrip (joinIncrements provider prompt (j + 1))) = true
    · simp only [hs, if_true] at h
      cases h
      exact ⟨rfl, rfl, Nat.succ_le_succ (Nat.zero_le _)⟩
    · simp [hs] at h
  | succ fuel1 ih =>
    intro j r h
    unfold contLoop at h
    by_cases hs : endsWith sentinel (pyStrip (joinIncrements provider prompt (j + 1))) = true
    · simp only [hs, if_true] at h
      cases h
      exact ⟨rfl, rfl, Nat.succ_le_succ (Nat.zero_le _)⟩
    · simp only [hs, if_false, Bool.false_eq_true] at h
      have hhist1 : afterHist provider prompt j ++ [Msg.user continueDirective]
          = submittedHist provider prompt (j + 1) := by
        rw [submittedHist_succ]
        simp [afterHist, increment]
      rw [hhist1] at h
      have hinc : concatChunks (provider (submittedHist provider prompt (j + 1)))
          = increment provider prompt (j + 1) := rfl
      rw [hinc, ← joinIncrements_succ] at h
      have hafter : submittedHist provider prompt (j + 1)
            ++ [Msg.ai (increment provider prompt (j + 1))]
          = afterHist provider prompt (j + 1) := rfl
      rw [hafter] at h
      exact ih (j + 1) r h

theorem runProtocol_eq_contLoop (provider : List Msg → List Chars)
    (prompt : Chars) (fuel : Nat) :
    runProtocol provider prompt fuel
      = contLoop provider fuel (joinIncrements provider prompt 1) 1
          (afterHist provider prompt 0) := by
  rw [joinIncrements_one]
  rfl

/-- C2.  A terminating run of the streaming-continuation protocol
accumulates exactly the concatenation, in strict issuance order, of the
non-empty stream increments of every request, and the message history
submitted on each continuation request is cumulative: the history of
request `j+1` extends that of request `j` with the `j`-th assistant reply
and the continuation user message — so every prior user and assistant
turn is retained in order.  The final transcript is the full history. -/
theorem claim_C2 (provider : List Msg → List Chars) (prompt : Chars)
    (fuel : Nat) (r : ProtoResult)
    (h : runProtocol provider prompt fuel = some r) :
    r.text = joinIncrements provider prompt r.requests ∧
    (∀ j, increment provider prompt j
        = ((provider (submittedHist provider prompt j)).filter
            (fun c => !c.isEmpty)).flatten) ∧
    (∀ j, submittedHist provider prompt (j + 1)
        = submittedHist provider prompt j
            ++ [Msg.ai (increment provider prompt j),
                Msg.user continueDirective]) ∧
    r.hist = afterHist provider prompt (r.requests - 1) ∧
    1 ≤ r.requests := by
  rw [runProtocol_eq_contLoop] at h
  have hz : (1 : Nat) = 0 + 1 := rfl
  rw [hz] at h
  have hmain := contLoop_spec provider prompt fuel 0 r h
  exact ⟨hmain.1,
    fun j => concatChunks_eq_flatten_filter _,
    fun j => submittedHist_succ provider prompt j,
    hmain.2.1, hmain.2.2⟩

/-- A provider that replies with a single complete, sentinel-terminated
chunk regardless of the submitted history. -/
def provA : List Msg → List Chars := fun _ => [chars "hello###"]

/-- Witness for C2 at a concrete provider: one request, buffer equals the
single non-empty increment. -/
theorem claim_C2_witness :
    runProtocol provA (chars "q") 0
      = some ⟨chars "hello###", 1,
          [Msg.user (chars "q" ++ firstDirectiveSuffix),
           Msg.ai (chars "hello###")]⟩ ∧
    (ProtoResult.mk (chars "hello###") 1
        [Msg.user (chars "q" ++ firstDirectiveSuffix),
         Msg.ai (chars "hello###")]).text
      = joinIncrements provA (chars "q") 1 := by
  refine ⟨by decide, ?_⟩
  exact (claim_C2 provA (chars "q") 0 _ (by decide)).1

/-- C1 (counterexample).  The claim says the text returned by
`invoke_with_cleaning` never contains the sentinel `###`.  But the source
only applies `remove_think_tags` and `strip()` to the buffer (lines
116-118) and never removes the sentinel, so with a provider whose first
exchange is `"hello###"` the returned text is `"hello###"`, which
contains the sentinel. -/
theorem claim_C1_counterexample :
    invoke_with_cleaning provA (chars "q") 0 = some (chars "hello###") ∧
    containsSub sentinel (chars "hello###") = true := by
  constructor
  · decide
  · decide

/-- C1 (amended).  When the first exchange's buffer already ends (after
whitespace stripping) with the sentinel, exactly one request is issued
and the returned text is that buffer with the `<think>...</think>` spans
removed in a single left-to-right non-overlapping pass and surrounding
whitespace stripped; the sentinel itself is not removed. -/
theorem claim_C1 (provider : List Msg → List Chars) (prompt : Chars)
    (fuel : Nat)
    (h : endsWith sentinel (pyStrip (increment provider prompt 0)) = true) :
    invoke_with_cleaning provider prompt fuel
      = some (pyStrip (remove_think_tags (increment provider prompt 0))) ∧
    (runProtocol provider prompt fuel).map ProtoResult.requests = some 1 := by
  have hrun : runProtocol provider prompt fuel
      = some ⟨increment provider prompt 0, 1, afterHist provider prompt 0⟩ := by
    rw [runProtocol_eq_contLoop, joinIncrements_one]
    cases fuel with
    | zero => rw [contLoop, if_pos h]
    | succ fuel1 => rw [contLoop, if_pos h]
  constructor
  · rw [invoke_with_cleaning, hrun]
    rfl
  · rw [hrun]
    rfl

/-- Witness for C1 (amended) at a concrete provider: the first exchange
ends with the sentinel, one request is issued, and the returned text is
the think-stripped, whitespace-trimmed buffer. -/
theorem claim_C1_witness :
    endsWith sentinel (pyStrip (increment provA (chars "q") 0)) = true ∧
    invoke_with_cleaning provA (chars "q") 0
      = some (pyStrip (remove_think_tags (increment provA (chars "q") 0))) := by
  refine ⟨by decide, ?_⟩
  exact (claim_C1 provA (chars "q") 0 (by decide)).1

/-! ### The Chunker (`advanced_split_content` / `split_by_length`,
source lines 838-888)

The sentence tokenizer (`nltk.sent_tokenize`) and the embedding model
(`SentenceTransformer.encode`) are external collaborators: the chunker is
modelled over their combined output, a list of (sentence, embedding)
pairs.  Embedding vectors are lists of rationals and the similarity
function (`sklearn`'s `cosine_similarity`, also external) is an oracle
parameter `sim`; none of the claims depend on its numeric definition. -/

/-- An embedding vector. -/
abbrev Vec := List ℚ

/-- `(current_embedding + embeddings[i]) / 2.0` — the elementwise mean of
two vectors (source line 860). -/
def meanVec (u v : Vec) : Vec := List.zipWith (fun a b => (a + b) / 2) u v

/-- Python `" ".join(...)`. -/
def joinSpace : List Chars → Chars
  | [] => []
  | [s] => s
  | s :: t :: rest => s ++ ' ' :: joinSpace (t :: rest)

/-- The slice loop of `split_by_length` (source lines 880-888), with
explicit fuel so that it reduces in the kernel: each slice consumes at
least one character, so any fuel above the text length is sufficient.
With `max_length = 0` the source loop never terminates (`end_idx ==
start_idx` forever); that case is excluded from every claim (the
contract fixes `max_length = 500`). -/
def sblFuel : Nat → Chars → Nat → List Chars
  | 0, _, _ => []
  | Nat.succ _, [], _ => []
  | Nat.succ _, _ :: _, 0 => []
  | Nat.succ fuel, c :: t, Nat.succ m =>
    pyStrip ((c :: t).take (m + 1)) :: sblFuel fuel ((c :: t).drop (m + 1)) (m + 1)

/-- `split_by_length(text, max_length)` (source lines 880-888): cut the
text into consecutive `max_length`-sized slices, stripping each slice. -/
def split_by_length (text : Chars) (max_length : Nat) : List Chars :=
  sblFuel (text.length + 1) text max_length

/-- The same slicing without the per-slice `strip()`:
"consecutive fixed-size slices" as the specification puts it. -/
def hardSlicesFuel : Nat → Chars → Nat → List Chars
  | 0, _, _ => []
  | Nat.succ _, [], _ => []
  | Nat.succ _, _ :: _, 0 => []
  | Nat.succ fuel, c :: t, Nat.succ m =>
    (c :: t).take (m + 1) :: hardSlicesFuel fuel ((c :: t).drop (m + 1)) (m + 1)

/-- Raw consecutive slices of size `max_length`. -/
def hardSlices (text : Chars) (max_length : Nat) : List Chars :=
  hardSlicesFuel (text.length + 1) text max_length

/-- The merge loop of `advanced_split_content` (source lines 852-867):
`merged` holds the closed (already space-joined) paragraphs, `curS` the
sentences of the running segment, `curE` the running centroid. -/
def mergeLoop (sim : Vec → Vec → ℚ) (thr : ℚ) :
    List (Chars × Vec) → List Chars → List Chars → Vec → List Chars
  | [], merged, curS, _ => merged ++ [joinSpace curS]
  | (s, e) :: rest, merged, curS, curE =>
    if thr ≤ sim curE e then
      mergeLoop sim thr rest merged (curS ++ [s]) (meanVec curE e)
    else
      mergeLoop sim thr rest (merged ++ [joinSpace curS]) [s] e

/-- `advanced_split_content` (source lines 838-877) over the tokenizer /
embedder output `pairs`: greedy similarity merge, then length-based hard
split of any paragraph longer than `max_length`. -/
def advanced_split_content (sim : Vec → Vec → ℚ) (pairs : List (Chars × Vec))
    (similarity_threshold : ℚ) (max_length : Nat) : List Chars :=
  match pairs with
  | [] => []
  | (s0, e0) :: rest =>
    (mergeLoop sim similarity_threshold rest [] [s0] e0).flatMap fun para =>
      if max_length < para.length then split_by_length para max_length
      else [para]

/-! Spec-side description of the clustering, for the refinement claim C5:
these definitions follow the specification's words (§4.1(b)): "maintain a
running segment of sentences and a running centroid embedding
(initialized to the first sentence's embedding) … if similarity ≥
threshold, append the sentence to the current segment and update the
centroid as the arithmetic mean of the centroid and the new sentence
embedding … If similarity < threshold, close the current segment and
start a new one."  They are compared against the source's merge loop in
the C5 theorem. -/

structure ClusterState where
  closed : List (List Chars)
  current : List Chars
  centroid : Vec
deriving DecidableEq

/-- One step of the spec's greedy online clustering. -/
def clusterStep (sim : Vec → Vec → ℚ) (thr : ℚ) (st : ClusterState)
    (p : Chars × Vec) : ClusterState :=
  if thr ≤ sim st.centroid p.2 then
    { st with current := st.current ++ [p.1],
              centroid := meanVec st.centroid p.2 }
  else
    { closed := st.closed ++ [st.current], current := [p.1], centroid := p.2 }

/-- The spec's greedy single pass: segments (as sentence groups) in
input order; the first segment and centroid start at the first
sentence. -/
def specClusterSegments (sim : Vec → Vec → ℚ) (thr : ℚ) :
    List (Chars × Vec) → List (List Chars)
  | [] => []
  | (s0, e0) :: rest =>
    let final := rest.foldl (clusterStep sim thr) ⟨[], [s0], e0⟩
    final.closed ++ [final.current]

theorem foldl_clusterStep_shift (sim : Vec → Vec → ℚ) (thr : ℚ)
    (rest : List (Chars × Vec)) :
    ∀ (pre : List (List Chars)) (cur : List Chars) (cen : Vec),
      rest.foldl (clusterStep sim thr) ⟨pre, cur, cen⟩
        = { rest.foldl (clusterStep sim thr) ⟨[], cur, cen⟩ with
            closed := pre
              ++ (rest.foldl (clusterStep sim thr) ⟨[], cur, cen⟩).closed } := by
  induction rest with
  | nil => intro pre cur cen; simp
  | cons p rest ih =>
    intro pre cur cen
    simp only [List.foldl_cons, clusterStep]
    by_cases hs : thr ≤ sim cen p.2
    · simp only [if_pos hs]
      exact ih pre _ _
    · simp only [if_neg hs, List.nil_append]
      rw [ih (pre ++ [cur]) [p.1] p.2, ih [cur] [p.1] p.2]
      simp [List.append_assoc]

theorem mergeLoop_eq_spec (sim : Vec → Vec → ℚ) (thr : ℚ)
    (rest : List (Chars × Vec)) :
    ∀ (merged curS : List Chars) (curE : Vec),
      mergeLoop sim thr rest merged curS curE
        = merged
          ++ (((rest.foldl (clusterStep sim thr) ⟨[], curS, curE⟩).closed
              ++ [(rest.foldl (clusterStep sim thr)
                    ⟨[], curS, curE⟩).current]).map joinSpace) := by
  induction rest with
  | nil => intro merged curS curE; simp [mergeLoop]
  | cons p rest ih =>
    intro merged curS curE
    obtain ⟨s, e⟩ := p
    simp only [List.foldl_cons, clusterStep, mergeLoop]
    by_cases hs : thr ≤ sim curE e
    · simp only [if_pos hs]
      exact ih merged _ _
    · simp only [if_neg hs]
      rw [ih (merged ++ [joinSpace curS]) [s] e,
          foldl_clusterStep_shift sim thr rest ([] ++ [curS]) [s] e]
      simp [List.append_assoc]

/-- C5.  The Chunker's clustering is exactly the specified single greedy
pass: the source's merge loop yields, segment for segment and in order,
the space-joined segments of `specClusterSegments`, whose step function
initializes from the first sentence, appends when `sim ≥ threshold`
(updating the centroid to the mean of the old centroid and the new
embedding — a mean of two, not a running mean), and otherwise closes the
segment and restarts from the current sentence. -/
theorem claim_C5 (sim : Vec → Vec → ℚ) (pairs : List (Chars × Vec))
    (thr : ℚ) (max_length : Nat) :
    advanced_split_content sim pairs thr max_length
      = ((specClusterSegments sim thr pairs).map joinSpace).flatMap
          fun para =>
            if max_length < para.length then split_by_length para max_length
            else [para] := by
  cases pairs with
  | nil => rfl
  | cons p rest =>
    obtain ⟨s0, e0⟩ := p
    simp only [advanced_split_content, specClusterSegments]
    rw [mergeLoop_eq_spec sim thr rest [] [s0] e0]
    simp

theorem removeWs_append (a b : Chars) :
    removeWs (a ++ b) = removeWs a ++ removeWs b :=
  List.filter_append a b

theorem removeWs_dropWhile (s : Chars) :
    removeWs (s.dropWhile isWsChar) = removeWs s := by
  induction s with
  | nil => rfl
  | cons c rest ih =>
    by_cases hc : isWsChar c = true
    · rw [List.dropWhile_cons_of_pos hc, ih]
      simp [removeWs, List.filter_cons, hc]
    · rw [List.dropWhile_cons_of_neg (by simp [hc])]

theorem removeWs_reverse (s : Chars) :
    removeWs s.reverse = (removeWs s).reverse := by
  simp [removeWs, List.filter_reverse]

theorem removeWs_pyStrip (s : Chars) : removeWs (pyStrip s) = removeWs s := by
  rw [pyStrip, removeWs_reverse, removeWs_dropWhile, removeWs_reverse,
    removeWs_dropWhile, List.reverse_reverse]

theorem length_dropWhile_le (p : Char → Bool) (s : Chars) :
    (s.dropWhile p).length ≤ s.length := by
  induction s with
  | nil => exact Nat.le_refl _
  | cons c rest ih =>
    by_cases hc : p c = true
    · rw [List.dropWhile_cons_of_pos hc]
      exact Nat.le_trans ih (Nat.le_succ _)
    · rw [List.dropWhile_cons_of_neg (by simp [hc])]

theorem pyStrip_length_le (s : Chars) : (pyStrip s).length ≤ s.length := by
  rw [pyStrip]
  calc (((s.dropWhile isWsChar).reverse.dropWhile isWsChar).reverse).length
      = ((s.dropWhile isWsChar).reverse.dropWhile isWsChar).length := by
        simp
    _ ≤ (s.dropWhile isWsChar).reverse.length := length_dropWhile_le _ _
    _ = (s.dropWhile isWsChar).length := by simp
    _ ≤ s.length := length_dropWhile_le _ _

theorem sblFuel_eq_map :
    ∀ (fuel : Nat) (t : Chars) (m : Nat),
      sblFuel fuel t m = (hardSlicesFuel fuel t m).map pyStrip := by
  intro fuel
  induction fuel with
  | zero => intro t m; rfl
  | succ f ih =>
    intro t m
    cases t with
    | nil => rfl
    | cons c t1 =>
      cases m with
      | zero => rfl
      | succ m1 => simp [sblFuel, hardSlicesFuel, ih]

theorem hardSlicesFuel_flatten :
    ∀ (fuel : Nat) (t : Chars) (m : Nat), t.length < fuel →
      (hardSlicesFuel fuel t (m + 1)).flatten = t := by
  intro fuel
  induction fuel with
  | zero => intro t m h; exact absurd h (Nat.not_lt_zero _)
  | succ f ih =>
    intro t m h
    cases t with
    | nil => rfl
    | cons c t1 =>
      rw [hardSlicesFuel, List.flatten_cons,
        ih ((c :: t1).drop (m + 1)) m ?_, List.take_append_drop]
      have : ((c :: t1).drop (m + 1)).length = t1.length - m := by
        simp [List.length_drop]
      simp only [List.length_cons] at h
      omega

theorem mem_hardSlicesFuel_length :
    ∀ (fuel : Nat) (t : Chars) (m : Nat) (seg : Chars),
      seg ∈ hardSlicesFuel fuel t m → seg.length ≤ m := by
  intro fuel
  induction fuel with
  | zero => intro t m seg h; exact absurd h (List.not_mem_nil _)
  | succ f ih =>
    intro t m seg h
    cases t with
    | nil => exact absurd h (List.not_mem_nil _)
    | cons c t1 =>
      cases m with
      | zero => exact absurd h (List.not_mem_nil _)
      | succ m1 =>
        rw [hardSlicesFuel, List.mem_cons] at h
        cases h with
        | inl he =>
          rw [he]
          simp [List.length_take]
        | inr hm => exact ih _ _ _ hm

theorem removeWs_flatten_map_pyStrip (L : List Chars) :
    removeWs (L.map pyStrip).flatten = removeWs L.flatten := by
  induction L with
  | nil => rfl
  | cons a L ih =>
    simp only [List.map_cons, List.flatten_cons, removeWs_append,
      removeWs_pyStrip, ih]

theorem removeWs_flatten_split_by_length (t : Chars) (m : Nat) (hm : 0 < m) :
    removeWs (split_by_length t m).flatten = removeWs t := by
  obtain ⟨m1, rfl⟩ : ∃ m1, m = m1 + 1 :=
    ⟨m - 1, (Nat.succ_pred_eq_of_pos hm).symm⟩
  rw [split_by_length, sblFuel_eq_map, removeWs_flatten_map_pyStrip,
    hardSlicesFuel_flatten (t.length + 1) t m1 (Nat.lt_succ_self _)]

theorem removeWs_joinSpace (L : List Chars) :
    removeWs (joinSpace L) = removeWs L.flatten := by
  induction L with
  | nil => rfl
  | cons a L ih =>
    cases L with
    | nil => simp [joinSpace]
    | cons b L1 =>
      rw [joinSpace, List.flatten_cons, removeWs_append, removeWs_append, ← ih]
      have : removeWs (' ' :: joinSpace (b :: L1))
          = removeWs (joinSpace (b :: L1)) := by
        simp [removeWs, List.filter_cons, isWsChar]
      rw [this]

theorem removeWs_flatten_map_joinSpace (G : List (List Chars)) :
    removeWs (G.map joinSpace).flatten = removeWs G.flatten.flatten := by
  induction G with
  | nil => rfl
  | cons g G ih =>
    simp only [List.map_cons, List.flatten_cons, removeWs_append,
      removeWs_joinSpace, ih, List.flatten_append]

theorem foldl_clusterStep_flatten (sim : Vec → Vec → ℚ) (thr : ℚ)
    (rest : List (Chars × Vec)) :
    ∀ (cur : List Chars) (cen : Vec),
      ((rest.foldl (clusterStep sim thr) ⟨[], cur, cen⟩).closed
        ++ [(rest.foldl (clusterStep sim thr) ⟨[], cur, cen⟩).current]).flatten
      = cur ++ rest.map Prod.fst := by
  induction rest with
  | nil => intro cur cen; simp
  | cons p rest ih =>
    intro cur cen
    obtain ⟨s, e⟩ := p
    simp only [List.foldl_cons, clusterStep]
    by_cases hs : thr ≤ sim cen e
    · simp only [if_pos hs]
      rw [ih (cur ++ [s]) (meanVec cen e)]
      simp
    · simp only [if_neg hs, List.nil_append]
      rw [foldl_clusterStep_shift sim thr rest [cur] [s] e]
      simp only [List.append_assoc]
      rw [List.flatten_append]
      rw [show ([cur] : List (List Chars)).flatten = cur by simp]
      rw [ih [s] e]
      simp

theorem removeWs_flatten_splitter (l : List Chars) (m : Nat) (hm : 0 < m) :
    removeWs (l.flatMap (fun para =>
        if m < para.length then split_by_length para m else [para])).flatten
      = removeWs l.flatten := by
  induction l with
  | nil => rfl
  | cons a l ih =>
    rw [List.flatMap_cons, List.flatten_append, removeWs_append, ih,
      List.flatten_cons, removeWs_append]
    by_cases ha : m < a.length
    · rw [if_pos ha, removeWs_flatten_split_by_length a m hm]
    · rw [if_neg ha]
      simp

/-- C3.  Concatenating the Chunker's output segments, with all
whitespace erased (the merge inserts single spaces, the hard split
trims slice ends), reconstructs the concatenation of the input
sentences in order; the empty sentence sequence yields the empty output.
(`max_length = 0` is excluded: there the source's slice loop never
terminates; the contract fixes `max_length = 500`.) -/
theorem claim_C3 (sim : Vec → Vec → ℚ) (pairs : List (Chars × Vec))
    (thr : ℚ) (max_length : Nat) (hm : 0 < max_length) :
    removeWs (advanced_split_content sim pairs thr max_length).flatten
      = removeWs (pairs.map Prod.fst).flatten
    ∧ advanced_split_content sim [] thr max_length = [] := by
  refine ⟨?_, rfl⟩
  cases pairs with
  | nil => rfl
  | cons p rest =>
    obtain ⟨s0, e0⟩ := p
    simp only [advanced_split_content]
    rw [removeWs_flatten_splitter _ _ hm,
      mergeLoop_eq_spec sim thr rest [] [s0] e0, List.nil_append,
      removeWs_flatten_map_joinSpace, foldl_clusterStep_flatten sim thr rest]
    simp

/-- C4.  With a positive `max_length` (the source's slice loop never
terminates at `max_length = 0`; the contract fixes 500), every segment
the Chunker returns has at most `max_length` characters, and the hard
split is exactly: cut into consecutive `max_length`-sized slices with no
regard for sentence boundaries (the slices concatenate back to the
text), then trim each slice of surrounding whitespace. -/
theorem claim_C4 (sim : Vec → Vec → ℚ) (pairs : List (Chars × Vec))
    (thr : ℚ) (max_length : Nat) (hm : 0 < max_length) :
    (∀ seg ∈ advanced_split_content sim pairs thr max_length,
        seg.length ≤ max_length)
    ∧ (∀ t : Chars, split_by_length t max_length
        = (hardSlices t max_length).map pyStrip)
    ∧ (∀ t : Chars, (hardSlices t max_length).flatten = t) := by
  refine ⟨?_, fun t => sblFuel_eq_map _ t _, fun t => ?_⟩
  · intro seg hseg
    cases pairs with
    | nil => exact absurd hseg (List.not_mem_nil _)
    | cons p rest =>
      obtain ⟨s0, e0⟩ := p
      simp only [advanced_split_content, List.mem_flatMap] at hseg
      obtain ⟨para, _, hseg⟩ := hseg
      by_cases hp : max_length < para.length
      · rw [if_pos hp, split_by_length, sblFuel_eq_map, List.mem_map] at hseg
        obtain ⟨raw, hraw, rfl⟩ := hseg
        exact Nat.le_trans (pyStrip_length_le raw)
          (mem_hardSlicesFuel_length _ _ _ _ hraw)
      · rw [if_neg hp, List.mem_singleton] at hseg
        rw [hseg]
        exact Nat.le_of_not_lt hp
  · obtain ⟨m1, rfl⟩ : ∃ m1, max_length = m1 + 1 :=
      ⟨max_length - 1, (Nat.succ_pred_eq_of_pos hm).symm⟩
    exact hardSlicesFuel_flatten _ t m1 (Nat.lt_succ_self _)

/-- A constant similarity oracle used for concrete chunker runs. -/
def simW : Vec → Vec → ℚ := fun _ _ => 1

/-- A concrete tokenizer/embedder output: one four-character sentence. -/
def pairsW : List (Chars × Vec) := [(chars "abcd", [1])]

/-- Witness for C3: with `max_length = 1` the sample sentence is merged
and then hard-split into single characters, which reconstruct it. -/
theorem claim_C3_witness :
    0 < 1 ∧
    advanced_split_content simW pairsW 0 1
      = [chars "a", chars "b", chars "c", chars "d"] ∧
    removeWs (advanced_split_content simW pairsW 0 1).flatten
      = removeWs (pairsW.map Prod.fst).flatten :=
  ⟨by decide, by decide, (claim_C3 simW pairsW 0 1 (by decide)).1⟩

/-- Witness for C4: with `max_length = 2` the sample produces the
segment `"ab"`, whose length is within the bound. -/
theorem claim_C4_witness :
    0 < 2 ∧ (chars "ab").length ≤ 2 :=
  ⟨by decide,
    (claim_C4 simW pairsW 0 2 (by decide)).1 (chars "ab") (by decide)⟩

/-! ### Chapter pipeline state (`finalize_chapter`, source lines 657-790,
and `generate_chapter_draft`, source lines 551-653)

The project files these functions read and write, plus the vector-store
contents (a bag of inserted documents).  `read_file` of an absent file
yields the empty text; `clear_file_content` + `save_string_to_txt` is
overwrite, modelled as assignment.  The language model is abstracted as
an oracle `gen` from the data each call site feeds into its prompt
template (the templates themselves live in the external
`prompt_definitions` module) to the cleaned response text of
`invoke_with_cleaning`; oracle totality models the non-raising runs. -/

structure NovelFS where
  chapterFiles : Nat → Chars
  outlineFiles : Nat → Chars
  characterState : Chars
  globalSummary : Chars
  plotArcs : Chars
  vectorStore : List Chars

/-- The generator call sites of the chapter pipeline, with the data each
feeds into its prompt. -/
inductive GenCall where
  | enrich (chapterText : Chars) (wordNumber : Nat)
  | summary (chapterText oldSummary : Chars)
  | characterStateUpdate (chapterText oldState : Chars)
  | plotArcsUpdate (chapterText oldArcs : Chars)
  | outline (novelSetting charStateAug globalSummary : Chars)
      (novelNumber : Nat) (title brief recentSummary guidance : Chars)
  | prose (novelSetting charStateAug globalSummary chapterOutline : Chars)
      (wordNumber : Nat) (title brief recentSummary guidance : Chars)
deriving DecidableEq

/-- `enrich_chapter_text` (source lines 766-790): ask for an expansion;
if the model's cleaned response is empty, keep the original text
(`return enriched_text if enriched_text else chapter_text`). -/
def enrich_chapter_text (gen : GenCall → Chars) (chapter_text : Chars)
    (word_number : Nat) : Chars :=
  let enriched := gen (.enrich chapter_text word_number)
  if enriched = [] then chapter_text else enriched

/-- `update_plot_arcs` (source lines 523-547): fall back to the old
ledger on an empty response. -/
def update_plot_arcs (gen : GenCall → Chars)
    (chapter_text old_plot_arcs : Chars) : Chars :=
  let arcs := gen (.plotArcsUpdate chapter_text old_plot_arcs)
  if arcs = [] then old_plot_arcs else arcs

/-- Number of enrichment requests in a call trace. -/
def countEnrich (trace : List GenCall) : Nat :=
  trace.countP fun c => match c with
    | GenCall.enrich _ _ => true
    | _ => false

/-- `finalize_chapter` (source lines 657-763).  Returns the new file
state and the trace of generator calls, in order.  The length guard
`len(chapter_text) < 0.8 * word_number` is embedded exactly as
`5 * len < 4 * word_number`; the float product `0.8 * word_number`
rounds to the rational `4w/5` comparison outcome for every word count
below `2^52`. -/
def finalize_chapter (gen : GenCall → Chars) (novel_number word_number : Nat)
    (fs : NovelFS) : NovelFS × List GenCall :=
  let chapter_text := pyStrip (fs.chapterFiles novel_number)
  if chapter_text = [] then (fs, [])
  else
    let old_char_state := fs.characterState
    let old_global_summary := fs.globalSummary
    let old_plot_arcs := fs.plotArcs
    let tooShort := 5 * chapter_text.length < 4 * word_number
    let chapter_text2 :=
      if tooShort then enrich_chapter_text gen chapter_text word_number
      else chapter_text
    let fs1 :=
      if tooShort then
        { fs with chapterFiles :=
            Function.update fs.chapterFiles novel_number chapter_text2 }
      else fs
    let sumRes := gen (.summary chapter_text2 old_global_summary)
    let new_global_summary := if sumRes = [] then old_global_summary else sumRes
    let charRes := gen (.characterStateUpdate chapter_text2 old_char_state)
    let new_char_state := if charRes = [] then old_char_state else charRes
    let new_plot_arcs := update_plot_arcs gen chapter_text2 old_plot_arcs
    let fs2 :=
      { fs1 with
          characterState := new_char_state,
          globalSummary := new_global_summary,
          plotArcs := new_plot_arcs,
          vectorStore := fs1.vectorStore ++ [chapter_text2] }
    (fs2,
      (if tooShort then [GenCall.enrich chapter_text word_number] else [])
        ++ [GenCall.summary chapter_text2 old_global_summary,
            GenCall.characterStateUpdate chapter_text2 old_char_state,
            GenCall.plotArcsUpdate chapter_text2 old_plot_arcs])

/-- Python `"\n".join(...)`. -/
def joinNewline : List Chars → Chars
  | [] => []
  | [s] => s
  | s :: t :: rest => s ++ '\n' :: joinNewline (t :: rest)

/-- `get_relevant_context_from_vector_store` (source lines 308-338) over
a similarity-search oracle: empty result (absent store or no documents)
yields the empty text, otherwise the newline-joined retrieved texts. -/
def get_relevant_context_from_vector_store
    (search : List Chars → Chars → List Chars) (store : List Chars)
    (q : Chars) : Chars :=
  let docs := search store q
  if docs = [] then [] else joinNewline docs

/-- `generate_chapter_draft` (source lines 551-653): build the retrieval
queries, assemble the retrieved context, generate and persist the
outline, generate and persist the draft, return the draft text.  The
directory parser is the oracle `dirParser`. -/
def generate_chapter_draft (search : List Chars → Chars → List Chars)
    (dirParser : Chars → Nat → Chars × Chars) (gen : GenCall → Chars)
    (novel_settings global_summary character_state
      recent_chapters_summary user_guidance : Chars)
    (novel_number word_number : Nat) (novel_novel_directory : Chars)
    (fs : NovelFS) : NovelFS × Chars :=
  let info := dirParser novel_novel_directory novel_number
  let chapter_title := info.1
  let chapter_brief := info.2
  let queries :=
    (if pyStrip user_guidance ≠ [] then [user_guidance] else [])
      ++ (if pyStrip chapter_brief ≠ [] then [chapter_brief] else [])
      ++ [chars "回顾剧情"]
  let relevant_context := queries.foldl
    (fun acc q =>
      let partialContext :=
        get_relevant_context_from_vector_store search fs.vectorStore q
      if pyStrip partialContext ≠ [] then acc ++ '\n' :: partialContext
      else acc)
    []
  let relevant_context :=
    if relevant_context = [] then chars "暂无相关内容。" else relevant_context
  let charStateAug :=
    character_state ++ chars "\n\n【检索到的上下文】\n" ++ relevant_context
  let chapter_outline := gen (.outline novel_settings charStateAug
    global_summary novel_number chapter_title chapter_brief
    recent_chapters_summary user_guidance)
  let fs1 := { fs with
    outlineFiles := Function.update fs.outlineFiles novel_number chapter_outline }
  let chapter_content := gen (.prose novel_settings charStateAug
    global_summary chapter_outline word_number chapter_title chapter_brief
    recent_chapters_summary user_guidance)
  let fs2 := { fs1 with
    chapterFiles := Function.update fs1.chapterFiles novel_number chapter_content }
  (fs2, chapter_content)

/-- C7.  Finalizing a chapter whose draft is empty or whitespace-only is
a pure no-op: no generator call, no ledger write, no draft write, no
vector-store insertion — the state is returned unchanged (the source
logs a warning and returns at lines 679-681, before any mutation). -/
theorem claim_C7 (gen : GenCall → Chars) (novel_number word_number : Nat)
    (fs : NovelFS) (h : pyStrip (fs.chapterFiles novel_number) = []) :
    finalize_chapter gen novel_number word_number fs = (fs, []) := by
  simp [finalize_chapter, h]

/-- A generator oracle that always returns the empty (cleaned) text. -/
def gen0 : GenCall → Chars := fun _ => []

/-- A project state whose chapter-1 draft is whitespace-only, with
non-empty ledgers. -/
def fsE : NovelFS :=
  ⟨fun _ => chars "  \n", fun _ => [], chars "cs", chars "gs", chars "pa",
   [chars "doc"]⟩

/-- Witness for C7 at a concrete whitespace-only draft. -/
theorem claim_C7_witness : finalize_chapter gen0 1 10 fsE = (fsE, []) :=
  claim_C7 gen0 1 10 fsE (by decide)

/-- A project state whose chapter-1 draft is the two-character text
`"ab"`. -/
def fsShort : NovelFS := ⟨fun _ => chars "ab", fun _ => [], [], [], [], []⟩

/-- C6 (counterexample).  With a draft of length 2 and target 10 the
guard fires (2 < 8) and the enrichment request is issued, but when the
model's response is empty `enrich_chapter_text` returns the original
text (line 790), so the persisted draft after finalize equals the
pre-finalize draft — contradicting the claimed "differs … and its length
has increased". -/
theorem claim_C6_counterexample :
    pyStrip (fsShort.chapterFiles 1) ≠ [] ∧
    5 * (pyStrip (fsShort.chapterFiles 1)).length < 4 * 10 ∧
    countEnrich (finalize_chapter gen0 1 10 fsShort).2 = 1 ∧
    (finalize_chapter gen0 1 10 fsShort).1.chapterFiles 1
      = fsShort.chapterFiles 1 := by
  refine ⟨by decide, by decide, by decide, by decide⟩

/-- C6 (amended).  For every non-empty draft: when the stripped draft's
length is strictly below 80% of the target word count, the enrichment
request fires exactly once and the persisted draft is overwritten with
the enrichment result — the model's cleaned response when non-empty,
otherwise the stripped original draft — which need not differ from nor
exceed the length of the pre-finalize draft; at or above 80%, no
enrichment request fires and the draft file is left unchanged. -/
theorem claim_C6 (gen : GenCall → Chars) (novel_number word_number : Nat)
    (fs : NovelFS) (hne : pyStrip (fs.chapterFiles novel_number) ≠ []) :
    (5 * (pyStrip (fs.chapterFiles novel_number)).length < 4 * word_number →
      countEnrich (finalize_chapter gen novel_number word_number fs).2 = 1 ∧
      (finalize_chapter gen novel_number word_number fs).1.chapterFiles
          novel_number
        = enrich_chapter_text gen (pyStrip (fs.chapterFiles novel_number))
            word_number)
    ∧ (¬ 5 * (pyStrip (fs.chapterFiles novel_number)).length
          < 4 * word_number →
      countEnrich (finalize_chapter gen novel_number word_number fs).2 = 0 ∧
      (finalize_chapter gen novel_number word_number fs).1.chapterFiles
        = fs.chapterFiles) := by
  constructor
  · intro hlt
    simp [finalize_chapter, hne, hlt, countEnrich, update_plot_arcs]
  · intro hge
    simp [finalize_chapter, hne, hge, countEnrich, update_plot_arcs]

/-- Witness for C6 at a concrete short draft: the guard fires once and
the persisted draft is the enrichment result. -/
theorem claim_C6_witness :
    pyStrip (fsShort.chapterFiles 1) ≠ [] ∧
    (countEnrich (finalize_chapter gen0 1 10 fsShort).2 = 1 ∧
      (finalize_chapter gen0 1 10 fsShort).1.chapterFiles 1
        = enrich_chapter_text gen0 (pyStrip (fsShort.chapterFiles 1)) 10) :=
  ⟨by decide, (claim_C6 gen0 1 10 fsShort (by decide)).1 (by decide)⟩

/-- C9.  The draft phase writes only the chapter's outline file and the
chapter's draft file and returns the draft text: the three ledgers and
the vector-store contents are untouched (the store is only queried
through `search`), and no other chapter's files change. -/
theorem claim_C9 (search : List Chars → Chars → List Chars)
    (dirParser : Chars → Nat → Chars × Chars) (gen : GenCall → Chars)
    (novel_settings global_summary character_state
      recent_chapters_summary user_guidance : Chars)
    (novel_number word_number : Nat) (novel_novel_directory : Chars)
    (fs : NovelFS) :
    (generate_chapter_draft search dirParser gen novel_settings
        global_summary character_state recent_chapters_summary user_guidance
        novel_number word_number novel_novel_directory fs).1.characterState
      = fs.characterState
    ∧ (generate_chapter_draft search dirParser gen novel_settings
        global_summary character_state recent_chapters_summary user_guidance
        novel_number word_number novel_novel_directory fs).1.globalSummary
      = fs.globalSummary
    ∧ (generate_chapter_draft search dirParser gen novel_settings
        global_summary character_state recent_chapters_summary user_guidance
        novel_number word_number novel_novel_directory fs).1.plotArcs
      = fs.plotArcs
    ∧ (generate_chapter_draft search dirParser gen novel_settings
        global_summary character_state recent_chapters_summary user_guidance
        novel_number word_number novel_novel_directory fs).1.vectorStore
      = fs.vectorStore
    ∧ (generate_chapter_draft search dirParser gen novel_settings
        global_summary character_state recent_chapters_summary user_guidance
        novel_number word_number novel_novel_directory fs).1.outlineFiles
      = Function.update fs.outlineFiles novel_number
          ((generate_chapter_draft search dirParser gen novel_settings
            global_summary character_state recent_chapters_summary
            user_guidance novel_number word_number novel_novel_directory
            fs).1.outlineFiles novel_number)
    ∧ (generate_chapter_draft search dirParser gen novel_settings
        global_summary character_state recent_chapters_summary user_guidance
        novel_number word_number novel_novel_directory fs).1.chapterFiles
      = Function.update fs.chapterFiles novel_number
          ((generate_chapter_draft search dirParser gen novel_settings
            global_summary character_state recent_chapters_summary
            user_guidance novel_number word_number novel_novel_directory
            fs).2)
    ∧ (generate_chapter_draft search dirParser gen novel_settings
        global_summary character_state recent_chapters_summary user_guidance
        novel_number word_number novel_novel_directory fs).2
      = (generate_chapter_draft search dirParser gen novel_settings
          global_summary character_state recent_chapters_summary
          user_guidance novel_number word_number novel_novel_directory
          fs).1.chapterFiles novel_number := by
  refine ⟨rfl, rfl, rfl, rfl, ?_, rfl, ?_⟩
  · simp only [generate_chapter_draft]
    rw [Function.update_same]
  · simp only [generate_chapter_draft]
    rw [Function.update_same]

/-! ### Directory generation (`Novel_directory_generate`,
source lines 408-452) -/

/-- The two files this operation touches.  `read_file` of an absent
`Novel_setting.txt` yields the empty text; an absent directory file is
`none`. -/
structure DirectoryFS where
  novelSetting : Chars
  novelDirectory : Option Chars
deriving DecidableEq

/-- `replace('#', '').replace('*', '')` (source line 449). -/
def removeHashStar (s : Chars) : Chars :=
  (s.filter (fun c => !(c == '#'))).filter (fun c => !(c == '*'))

/-- `Novel_directory_generate` (source lines 408-452): read the setting,
warn and return if its stripped text is empty; invoke the generator
(oracle over the setting text and the chapter count); warn and return if
the result strips to empty; otherwise overwrite the directory file with
the `#`/`*`-cleaned result. -/
def Novel_directory_generate (gen : Chars → Nat → Chars)
    (number_of_chapters : Nat) (fs : DirectoryFS) : DirectoryFS :=
  let final_novel_setting := pyStrip fs.novelSetting
  if final_novel_setting = [] then fs
  else
    let final_novel_directory := gen final_novel_setting number_of_chapters
    if pyStrip final_novel_directory = [] then fs
    else { fs with
      novelDirectory := some (removeHashStar final_novel_directory) }

/-- C8.  Generating the directory while the persisted setting is empty
or absent is a pure no-op: the state is returned unchanged, so the
directory file is neither created nor modified (the source warns and
returns at lines 422-424, before the model is even constructed). -/
theorem claim_C8 (gen : Chars → Nat → Chars) (number_of_chapters : Nat)
    (fs : DirectoryFS) (h : pyStrip fs.novelSetting = []) :
    Novel_directory_generate gen number_of_chapters fs = fs := by
  simp [Novel_directory_generate, h]

/-- A directory generator oracle with a fixed non-empty answer. -/
def dirGenW : Chars → Nat → Chars := fun _ _ => chars "第一章"

/-- A project whose setting file is whitespace-only and whose directory
file does not exist. -/
def dirFsW : DirectoryFS := ⟨chars " \n ", none⟩

/-- Witness for C8 at a concrete whitespace-only setting. -/
theorem claim_C8_witness :
    Novel_directory_generate dirGenW 3 dirFsW = dirFsW :=
  claim_C8 dirGenW 3 dirFsW (by decide)

/-! ### `get_last_n_chapters_text` (source lines 456-472) -/

/-- `get_last_n_chapters_text(chapters_dir, current_chapter_num, n)`:
chapter files are modelled as `files : Nat → Option Chars` (`none` for a
file that does not exist).  Collect the non-empty stripped texts of
chapters `max(1, cur-n) … cur-1` in ascending order, then left-pad with
empty strings to length `n` when fewer were found. -/
def get_last_n_chapters_text (files : Nat → Option Chars)
    (current_chapter_num n : Nat) : List Chars :=
  let start_chap := max 1 (current_chapter_num - n)
  let texts :=
    (List.range' start_chap (current_chapter_num - start_chap)).foldl
      (fun acc c =>
        match files c with
        | none => acc
        | some raw =>
          let text := pyStrip raw
          if text = [] then acc else acc ++ [text])
      []
  if texts.length < n then List.replicate (n - texts.length) [] ++ texts
  else texts

/-- The collected (pre-padding) texts, described directly: the non-empty
stripped texts of the up-to-`n` chapters immediately preceding the
current one, oldest to newest. -/
def lastChaptersCollected (files : Nat → Option Chars)
    (current_chapter_num n : Nat) : List Chars :=
  (List.range' (max 1 (current_chapter_num - n))
      (current_chapter_num - max 1 (current_chapter_num - n))).filterMap
    fun c =>
      (files c).bind fun raw =>
        if pyStrip raw = [] then none else some (pyStrip raw)

theorem foldl_collect_eq_filterMap (files : Nat → Option Chars) :
    ∀ (idxs : List Nat) (acc : List Chars),
      idxs.foldl
        (fun acc c =>
          match files c with
          | none => acc
          | some raw =>
            let text := pyStrip raw
            if text = [] then acc else acc ++ [text])
        acc
      = acc ++ idxs.filterMap
          (fun c =>
            (files c).bind fun raw =>
              if pyStrip raw = [] then none else some (pyStrip raw)) := by
  intro idxs
  induction idxs with
  | nil => intro acc; simp
  | cons c idxs ih =>
    intro acc
    rw [List.foldl_cons, List.filterMap_cons]
    cases hf : files c with
    | none => simp only [hf, Option.none_bind]; exact ih acc
    | some raw =>
      by_cases hr : pyStrip raw = []
      · simp only [hf, Option.some_bind, if_pos hr]
        exact ih acc
      · simp only [hf, Option.some_bind, if_neg hr]
        rw [ih (acc ++ [pyStrip raw])]
        simp

theorem lastChaptersCollected_length_le (files : Nat → Option Chars)
    (current_chapter_num n : Nat) :
    (lastChaptersCollected files current_chapter_num n).length ≤ n := by
  have h1 := List.length_filterMap_le
    (fun c =>
      (files c).bind fun raw =>
        if pyStrip raw = [] then none else some (pyStrip raw))
    (List.range' (max 1 (current_chapter_num - n))
      (current_chapter_num - max 1 (current_chapter_num - n)))
  rw [List.length_range'] at h1
  refine Nat.le_trans h1 ?_
  omega

/-- C10.  `get_last_n_chapters_text` always returns exactly `n` texts:
the non-empty stripped texts of the up-to-`n` chapters immediately
preceding the current chapter (the current chapter is never read), in
order from oldest to newest, left-padded with empty strings to length
`n` when fewer exist. -/
theorem claim_C10 (files : Nat → Option Chars)
    (current_chapter_num n : Nat) :
    (get_last_n_chapters_text files current_chapter_num n).length = n
    ∧ get_last_n_chapters_text files current_chapter_num n
      = List.replicate
          (n - (lastChaptersCollected files current_chapter_num n).length) []
          ++ lastChaptersCollected files current_chapter_num n := by
  have hfold : get_last_n_chapters_text files current_chapter_num n
      = if (lastChaptersCollected files current_chapter_num n).length < n
        then List.replicate
            (n - (lastChaptersCollected files current_chapter_num n).length)
            [] ++ lastChaptersCollected files current_chapter_num n
        else lastChaptersCollected files current_chapter_num n := by
    rw [get_last_n_chapters_text]
    rw [foldl_collect_eq_filterMap files _ []]
    rfl
  have hle := lastChaptersCollected_length_le files current_chapter_num n
  by_cases hlt : (lastChaptersCollected files current_chapter_num n).length < n
  · rw [hfold, if_pos hlt]
    constructor
    · simp [List.length_replicate]
      omega
    · rfl
  · have heq : (lastChaptersCollected files current_chapter_num n).length = n := by
      omega
    rw [hfold, if_neg hlt, heq]
    constructor
    · rfl
    · simp

end NovelGen
